import Mathlib

/-!
Verification development for the real-time event core of the
Mission Pinball Framework repository: a shallow embedding of
`mpf/system/timing.py`, `mpf/system/switch_controller.py` and
`mpf/devices/accelerometer.py`, with theorems settling the frozen
behavioural claims about those modules.

Python floats are modelled as exact rationals (`ℚ`), Python ints as
`Int`/`Nat`, Python strings as `String` or `List Char`, Python dicts as
association lists, and fallible Python code (KeyError, TypeError,
ZeroDivisionError, ValueError) as `Except PyErr`.
-/

instance {ε α : Type} [DecidableEq ε] [DecidableEq α] : DecidableEq (Except ε α) := fun a b =>
  match a, b with
  | .ok x, .ok y =>
    if h : x = y then .isTrue (by rw [h]) else .isFalse (by intro hc; cases hc; exact h rfl)
  | .error x, .error y =>
    if h : x = y then .isTrue (by rw [h]) else .isFalse (by intro hc; cases hc; exact h rfl)
  | .ok _, .error _ => .isFalse (by intro hc; cases hc)
  | .error _, .ok _ => .isFalse (by intro hc; cases hc)

namespace Mpf

/-- The Python exception kinds that the embedded code can raise. -/
inductive PyErr where
  | keyError
  | typeError
  | zeroDivision
  | valueError
deriving DecidableEq

/-! ## Timing service (`mpf/system/timing.py`) -/

/-- The class-level configuration of `Timing`: `Timing.HZ` and
`Timing.secs_per_tick`, both `None` until `configure` runs. -/
structure TimingConf where
  HZ : Option ℚ
  secs_per_tick : Option ℚ
deriving DecidableEq

/-- `Timing.configure(dev=None, HZ=50)`: unconditionally sets
`Timing.HZ = HZ` and `Timing.secs_per_tick = 1 / float(HZ)`.
The only failure is Python's `ZeroDivisionError` when `HZ == 0`;
there is no validation of the sign of `HZ` and no already-configured
check in the source. -/
def configure (HZ : ℚ) (_c : TimingConf) : Except PyErr TimingConf :=
  if HZ = 0 then .error .zeroDivision
  else .ok { HZ := some HZ, secs_per_tick := some (1 / HZ) }

/-- Python `int(x)` on a rational: truncation toward zero. -/
def ratTrunc (q : ℚ) : Int := q.num.tdiv (q.den : Int)

/-- `Timing.msecs(ms) = int(ms / Timing.secs_per_tick / 1000)`,
with `secs_per_tick` passed explicitly (the code reads the class
attribute set by `configure`). -/
def msecs (spt : ℚ) (ms : ℚ) : Int := ratTrunc (ms / spt / 1000)

/-- `Timing.secs(s) = int(s / Timing.secs_per_tick)`. -/
def secs (spt : ℚ) (s : ℚ) : Int := ratTrunc (s / spt)

/-- `''.join(i for i in time if not i.isalpha())`. -/
def stripAlpha (s : List Char) : List Char := s.filter (fun ch => !ch.isAlpha)

/-- Split a character list at the first '.', used to model Python
`float()` parsing of decimal literals. -/
def splitDot : List Char → List Char × Option (List Char)
  | [] => ([], none)
  | c :: rest =>
    if c = '.' then ([], some rest)
    else
      let p := splitDot rest
      (c :: p.1, p.2)

/-- Digits to a natural number, most significant first. -/
def digitsToNat (l : List Char) : Nat :=
  l.foldl (fun a ch => a * 10 + (ch.toNat - 48)) 0

/-- Python `float(s)` restricted to plain decimal literals (digit
sequences with at most one '.'); everything else raises `ValueError`. -/
def parseFloat (s : List Char) : Except PyErr ℚ :=
  let p := splitDot s
  match p.2 with
  | none =>
    if s ≠ [] ∧ s.all Char.isDigit then .ok (digitsToNat s)
    else .error .valueError
  | some frac =>
    if (p.1 ≠ [] ∨ frac ≠ []) ∧ p.1.all Char.isDigit ∧ frac.all Char.isDigit then
      .ok ((digitsToNat p.1 : ℚ) + (digitsToNat frac : ℚ) / (10 : ℚ) ^ frac.length)
    else .error .valueError

/-- `Timing.time_to_ticks(time)`: upper-cases the string, then tests
`time.endswith("ms") or time.endswith("msec")` — note the suffix tests
are case-sensitive and run on the already upper-cased string, exactly
as in the source — strips alphabetic characters, parses the remainder
as a float and converts with `msecs` or `secs`. -/
def time_to_ticks (spt : ℚ) (time : List Char) : Except PyErr Int :=
  if ['m', 's'].isSuffixOf (time.map Char.toUpper) ∨
      ['m', 's', 'e', 'c'].isSuffixOf (time.map Char.toUpper) then
    (parseFloat (stripAlpha (time.map Char.toUpper))).map (msecs spt)
  else
    (parseFloat (stripAlpha (time.map Char.toUpper))).map (secs spt)

/-- A `Timer` object after `__init__`. The Python callback is modelled
by an identifier `id` plus a flag `raises` saying whether calling it
raises an exception. -/
structure Timer where
  id : Nat
  wakeup : Option ℚ
  frequency : ℚ
  raises : Bool
deriving DecidableEq

/-- `Timer.__init__(callback, args, frequency=None)`: sets
`wakeup = None` and `frequency = frequency / 1000 * Timing.HZ`.
When the `frequency` argument is `None`, the expression
`None / 1000` raises `TypeError`, so construction fails. -/
def timerInit (HZ : ℚ) (id : Nat) (raises : Bool) (frequency : Option ℚ) :
    Except PyErr Timer :=
  match frequency with
  | none => .error .typeError
  | some f => .ok { id := id, wakeup := none, frequency := f / 1000 * HZ, raises := raises }

/-- State of a `Timing` instance: `Timing.tick` plus the timer set
(modelled as a list; Python set iteration order is unspecified and the
list fixes one order). -/
structure TimingState where
  tick : Nat
  timers : List Timer
deriving DecidableEq

/-- The guard `if timer.wakeup and timer.wakeup <= Timing.tick:` —
Python truthiness makes both `None` and `0` falsy. -/
def timerDue (tick : Nat) (tm : Timer) : Bool :=
  match tm.wakeup with
  | none => false
  | some w => decide (w ≠ 0) && decide (w ≤ (tick : ℚ))

/-- The post-call bookkeeping of `timer_tick` for one due timer whose
callback returned normally: `wakeup += frequency` if `frequency` is
truthy, else `wakeup = None`. -/
def fireUpdate (tm : Timer) : Timer :=
  if tm.frequency ≠ 0 then { tm with wakeup := tm.wakeup.map (· + tm.frequency) }
  else { tm with wakeup := none }

/-- What one pass of the `timer_tick` loop does to a single timer whose
callback does not raise. -/
def stepTimer (tick : Nat) (tm : Timer) : Timer :=
  if timerDue tick tm then fireUpdate tm else tm

/-- The `for timer in self.timers:` loop of `Timing.timer_tick`.
Returns the updated timer list and whether a callback exception
escaped. A raising callback aborts the loop before the raising timer's
`wakeup` is advanced; timers not yet reached stay untouched. -/
def tickTimers (tick : Nat) : List Timer → List Timer × Bool
  | [] => ([], false)
  | tm :: rest =>
    if timerDue tick tm then
      if tm.raises then (tm :: rest, true)
      else
        let p := tickTimers tick rest
        (fireUpdate tm :: p.1, p.2)
    else
      let p := tickTimers tick rest
      (tm :: p.1, p.2)

/-- `Timing.timer_tick()`: increments `Timing.tick`, then runs the
timer loop. The second component records whether a callback exception
propagated out of the call; the first component is the state at the
moment the call returns or the exception escapes. -/
def timer_tick (st : TimingState) : TimingState × Bool :=
  let t := st.tick + 1
  let p := tickTimers t st.timers
  ({ tick := t, timers := p.1 }, p.2)

/-- `Timing.add(timer)`: sets `timer.wakeup = Timing.tick + timer.frequency`
and inserts the timer into the set. -/
def timingAdd (tm : Timer) (st : TimingState) : TimingState :=
  { st with timers := st.timers ++ [{ tm with wakeup := some ((st.tick : ℚ) + tm.frequency) }] }

/-! ## Switch controller (`mpf/system/switch_controller.py`) -/

/-- One switch of `machine.switches`: its `type` string (`"NO"` or
`"NC"`) and its tag set. -/
structure SwitchDef where
  type : String
  tags : List String
deriving DecidableEq

/-- One value of the `self.switches` dict: `{'state': ..., 'time': ...}`
where `time` is the tick recorded by `set_state`. -/
structure SwState where
  state : Nat
  time : Nat
deriving DecidableEq

/-- One entry of `self.registered_switches[switch_key]`:
`{'ticks': ..., 'callback': ...}`. `ticks` is the dwell converted from
ms by `add_switch_handler` (`ceil`, hence a natural number for the
non-negative dwells of the data model); the callback is an identifier. -/
structure Entry where
  ticks : Nat
  callback : Nat
deriving DecidableEq

/-- One entry of a bucket of `self.active_timed_switches[k]`:
`{'switch_action': str(name) + '-' + str(state), 'callback': ...}`. -/
structure Pending where
  switch_action : String
  callback : Nat
deriving DecidableEq

/-- The state of a `SwitchController` (plus the `machine.switches`
collection it consults, the global `Timing.tick`, and logs of invoked
callbacks and posted events). Python dicts are association lists with
unique keys; `fired` records callback ids in invocation order and
`posted` records event names posted to the event bus. -/
structure SCState where
  tick : Nat
  machine : List (String × SwitchDef)
  registered : List (String × List Entry)
  active : List (Nat × List Pending)
  switches : List (String × SwState)
  fired : List Nat
  posted : List String
deriving DecidableEq

/-- `str(name) + '-' + str(state)`, the key format used for both
`registered_switches` and `switch_action`. -/
def switchKey (name : String) (state : Nat) : String :=
  name ++ "-" ++ toString state

/-- Python `dict.update({k: v})` / `d[k] = v` on an association list:
replace the first binding of `k`, or append a new binding. -/
def dictInsert {α : Type} (k : String) (v : α) :
    List (String × α) → List (String × α)
  | [] => [(k, v)]
  | (k', v') :: rest =>
    if k' = k then (k, v) :: rest else (k', v') :: dictInsert k v rest

/-- `SwitchController.set_state(switch_name, state)`:
`self.switches.update({switch_name: {'state': state, 'time': Timing.tick}})`. -/
def set_state (name : String) (state : Nat) (st : SCState) : SCState :=
  { st with switches := dictInsert name ⟨state, st.tick⟩ st.switches }

/-- `self.active_timed_switches[key].append(value)` on the defaultdict:
append to the first bucket with key `k`, creating it when absent. -/
def addPending (k : Nat) (p : Pending) :
    List (Nat × List Pending) → List (Nat × List Pending)
  | [] => [(k, [p])]
  | (k', v) :: rest =>
    if k' = k then (k', v ++ [p]) :: rest else (k', v) :: addPending k p rest

/-- The `for entry in self.registered_switches[switch_key]:` loop of
`process_switch`: a timed entry (`entry['ticks']` truthy, i.e. nonzero)
is scheduled at `Timing.tick + entry['ticks']`; an untimed entry's
callback runs immediately. Returns the updated
`active_timed_switches` and `fired` log. -/
def schedule (tick : Nat) (key : String) :
    List Entry → List (Nat × List Pending) → List Nat →
    List (Nat × List Pending) × List Nat
  | [], active, fired => (active, fired)
  | e :: es, active, fired =>
    if e.ticks ≠ 0 then
      schedule tick key es (addPending (tick + e.ticks) ⟨key, e.callback⟩ active) fired
    else
      schedule tick key es active (fired ++ [e.callback])

/-- How many items of a bucket have the given `switch_action`. -/
def countMatches (opp : String) (v : List Pending) : Nat :=
  v.countP (fun p => p.switch_action == opp)

/-- The cancellation sweep of `process_switch`: iterate over a snapshot
of `active_timed_switches.items()`; for each item of a bucket whose
`switch_action` equals the opposite action, `del` the whole bucket.
The inner loop keeps iterating the bucket after the `del`, so a second
matching item in the same bucket attempts to delete an absent key and
raises `KeyError`. -/
def sweep (opp : String) :
    List (Nat × List Pending) → Except PyErr (List (Nat × List Pending))
  | [] => .ok []
  | (k, v) :: rest =>
    match countMatches opp v with
    | 0 => (sweep opp rest).map (fun l => (k, v) :: l)
    | 1 => sweep opp rest
    | _ + 2 => .error .keyError

/-- `SwitchController._post_switch_events(switch_name, state)`: when
the state is 1, post `"sw_" + tag` for each tag of the switch. -/
def post_switch_events (sw : SwitchDef) (state : Nat) (posted : List String) :
    List String :=
  if state = 1 then posted ++ sw.tags.map (fun t => "sw_" ++ t) else posted

/-- The NC inversion at the top of `process_switch`: `state = state ^ 1`
when the switch type is `'NC'` and `logical` is false. -/
def logicState (sw : SwitchDef) (logical : Bool) (stateIn : Nat) : Nat :=
  if sw.type = "NC" ∧ logical = false then stateIn ^^^ 1 else stateIn

/-- The registered-handler pass of `process_switch`: when
`switch_key in self.registered_switches`, run `schedule` over its
entries; otherwise leave `active_timed_switches` and the fired log
unchanged. -/
def schedPart (st1 : SCState) (key : String) :
    List (Nat × List Pending) × List Nat :=
  match st1.registered.lookup key with
  | none => (st1.active, st1.fired)
  | some entries => schedule st1.tick key entries st1.active st1.fired

/-- `SwitchController.process_switch(name, state, logical)` (the `num`
and `obj` lookup alternatives are not modelled; the claims use `name`).
Steps, in source order: NC inversion when `logical` is false; `set_state`;
immediate fires and timed scheduling for registered handlers of
`(name, state)`; the cancellation sweep for the opposite action;
tag-event posting. `machine.switches[name]` raises `KeyError` for an
unknown name. -/
def process_switch (name : String) (stateIn : Nat) (logical : Bool)
    (st : SCState) : Except PyErr SCState :=
  match st.machine.lookup name with
  | none => .error .keyError
  | some sw =>
    let state := logicState sw logical stateIn
    let st1 := set_state name state st
    let sched := schedPart st1 (switchKey name state)
    (sweep (switchKey name (state ^^^ 1)) sched.1).map
      (fun active' =>
        { st1 with
            active := active'
            fired := sched.2
            posted := post_switch_events sw state st1.posted })

/-- `SwitchController.add_switch_handler(switch_name, callback, state, ms)`:
converts `ms` to ticks with `ticks = int(math.ceil(ms / Timing.secs_per_tick
/ 1000))` (for a machine at `HZ` ticks per second this is
`⌈ms * HZ / 1000⌉`) and appends the entry to
`registered_switches[switch_name + '-' + state]`. -/
def add_switch_handler (HZ : Nat) (name : String) (callback : Nat)
    (state : Nat) (ms : Nat) (st : SCState) : SCState :=
  let ticks := (ms * HZ + 999) / 1000
  let key := switchKey name state
  let entries := (st.registered.lookup key).getD []
  { st with registered := dictInsert key (entries ++ [⟨ticks, callback⟩]) st.registered }

/-- `SwitchController._tick()`: over a snapshot of
`active_timed_switches`, fire every callback of each bucket whose key
is `≤ Timing.tick` and delete the bucket. -/
def controller_tick (st : SCState) : SCState :=
  let due := st.active.filter (fun kv => decide (kv.1 ≤ st.tick))
  let rest := st.active.filter (fun kv => !decide (kv.1 ≤ st.tick))
  { st with
      fired := st.fired ++ due.flatMap (fun kv => kv.2.map (fun p => p.callback))
      active := rest }

/-- One machine tick as seen by the switch controller: `Timing.timer_tick`
increments the global tick and the `timer_tick` event then runs the
controller's per-tick hook `_tick`. -/
def tickStep (st : SCState) : SCState :=
  controller_tick { st with tick := st.tick + 1 }

/-- `SwitchController.ticks_since_change(switch_name)`:
`Timing.tick - self.switches[switch_name]['time']` (`none` models the
`KeyError` on an unknown name). -/
def ticks_since_change (st : SCState) (name : String) : Option Int :=
  (st.switches.lookup name).map (fun sw => (st.tick : Int) - (sw.time : Int))

/-- `SwitchController.is_state(switch_name, state, ticks=0)`: true iff
the stored state equals `state` and `ticks ≤ ticks_since_change`. -/
def is_state (st : SCState) (name : String) (state : Nat) (ticks : Int := 0) :
    Option Bool :=
  (st.switches.lookup name).map
    (fun sw => sw.state == state && decide (ticks ≤ (st.tick : Int) - (sw.time : Int)))

/-- The invariant of claim C9: every key of `active_timed_switches` is
a strictly future tick. -/
def KeysFuture (st : SCState) : Prop :=
  ∀ k ∈ st.active.map Prod.fst, st.tick < k

/-! ## Accelerometer (`mpf/devices/accelerometer.py`)

Samples are exact rationals. `_calculate_vector_length` is
`math.sqrt` of a sum of squares; since the square root is only ever
used inside `acos(dot / (len1 * len2))` and in threshold comparisons,
the model works with squared lengths, which determine the source's
values exactly: `len1 * len2 = 0` iff the product of the squared
lengths is `0`, and `sqrt(m) > t` iff `t < 0 ∨ t² < m`. -/

/-- The configuration dict of an accelerometer. `alpha` is the
smoothing coefficient named by the specification's
`AccelerometerConfig`; the source never reads it (see claim C7). -/
structure AccelConfig where
  alpha : ℚ
  level_x : ℚ
  level_y : ℚ
  level_z : ℚ
  hit_limits : List (ℚ × String)
  level_limits : List (ℚ × String)
deriving DecidableEq

/-- The mutable fields of an `Accelerometer`: `self.value` and
`self.history`, both initialised to `False` (`none`). -/
structure AccelState where
  value : Option (ℚ × ℚ × ℚ)
  history : Option (ℚ × ℚ × ℚ)
deriving DecidableEq

/-- Squared vector length `x*x + y*y + z*z` (the radicand of
`_calculate_vector_length`). -/
def vecLenSq (v : ℚ × ℚ × ℚ) : ℚ := v.1 * v.1 + v.2.1 * v.2.1 + v.2.2 * v.2.2

/-- Dot product of two 3-vectors. -/
def dot3 (v w : ℚ × ℚ × ℚ) : ℚ := v.1 * w.1 + v.2.1 * w.2.1 + v.2.2 * w.2.2

/-- `_calculate_angle(x1,y1,z1,x2,y2,z2)` computes
`acos(dot / (sqrt(|v|²) * sqrt(|w|²)))`. The divisor is zero exactly
when `|v|² * |w|² = 0`, in which case Python raises
`ZeroDivisionError`; otherwise the model returns the pair
`(dot, |v|² * |w|²)`, from which the source's `acos` argument is
`dot / sqrt(|v|² * |w|²)`. There is no clamping of the argument in the
source. -/
def calculate_angle (v w : ℚ × ℚ × ℚ) : Except PyErr (ℚ × ℚ) :=
  if vecLenSq v * vecLenSq w = 0 then .error .zeroDivision
  else .ok (dot3 v w, vecLenSq v * vecLenSq w)

/-- `_handle_level(x, y, z)` computes, in order, `deviation_total`
from the configured level vector and the sample, `deviation_x` from
their projections onto the y-z plane, and `deviation_y` from their
projections onto the x-z plane. The first zero-length pair raises
`ZeroDivisionError`. The subsequent degree-threshold comparison and
event posting consume these three angles through `acos`. -/
def handle_level (cfg : AccelConfig) (x y z : ℚ) :
    Except PyErr ((ℚ × ℚ) × (ℚ × ℚ) × (ℚ × ℚ)) := do
  let dTotal ← calculate_angle (cfg.level_x, cfg.level_y, cfg.level_z) (x, y, z)
  let dX ← calculate_angle (0, cfg.level_y, cfg.level_z) (0, y, z)
  let dY ← calculate_angle (cfg.level_x, 0, cfg.level_z) (x, 0, z)
  return (dTotal, dX, dY)

/-- `sqrt(m) > t` for a radicand `m ≥ 0`, decided on rationals. -/
def sqrtGtBool (m t : ℚ) : Bool := decide (t < 0) || decide (t * t < m)

/-- `_handle_hits(dx, dy, dz)`: posts the event of every hit limit the
delta magnitude `sqrt(dx²+dy²+dz²)` exceeds. -/
def handle_hits (cfg : AccelConfig) (d : ℚ × ℚ × ℚ) : List String :=
  cfg.hit_limits.filterMap
    (fun tv => if sqrtGtBool (vecLenSq d) tv.1 then some tv.2 else none)

/-- The state-update and delta computation of
`Accelerometer.update_acceleration(x, y, z)`: stores the raw sample;
on the first sample initialises `history` and zeroes the deltas;
afterwards the deltas are the sample minus the pre-update `history`
and `history` becomes `history * alpha + sample * (1 - alpha)` with
the local constant `alpha = 0.95` of the source. Returns the new
state and `(dx, dy, dz)`; the source then calls `_handle_hits` on the
deltas and `_handle_level` on the raw sample. -/
def update_acceleration (_cfg : AccelConfig) (st : AccelState) (x y z : ℚ) :
    AccelState × (ℚ × ℚ × ℚ) :=
  match st.history with
  | none => ({ value := some (x, y, z), history := some (x, y, z) }, (0, 0, 0))
  | some (hx, hy, hz) =>
    let alpha : ℚ := 19 / 20
    ({ value := some (x, y, z)
       history := some (hx * alpha + x * (1 - alpha),
                        hy * alpha + y * (1 - alpha),
                        hz * alpha + z * (1 - alpha)) },
     (x - hx, y - hy, z - hz))

/-! ## Helper lemmas -/

theorem ratTrunc_intCast (n : Int) : ratTrunc (n : ℚ) = n := by
  simp [ratTrunc, Rat.intCast_num, Rat.intCast_den]

theorem msecs_eval (spt ms : ℚ) (n : Int) (h : ms / spt / 1000 = (n : ℚ)) :
    msecs spt ms = n := by
  rw [msecs, h, ratTrunc_intCast]

theorem secs_eval (spt s : ℚ) (n : Int) (h : s / spt = (n : ℚ)) :
    secs spt s = n := by
  rw [secs, h, ratTrunc_intCast]

theorem exceptMap_ok {ε α β : Type} {e : Except ε α} {f : α → β} {b : β}
    (h : e.map f = .ok b) : ∃ a, e = .ok a ∧ f a = b := by
  cases e with
  | ok a => exact ⟨a, rfl, by simpa [Except.map] using h⟩
  | error x => simp [Except.map] at h

theorem switchKey_state_ne (name : String) (s s' : Nat) (hs : s ≤ 1) (hs' : s' ≤ 1)
    (hne : s ≠ s') : switchKey name s ≠ switchKey name s' := by
  intro h
  have h2 : (switchKey name s).data = (switchKey name s').data := congrArg String.data h
  simp [switchKey, String.data_append] at h2
  interval_cases s <;> interval_cases s' <;> first
    | exact hne rfl
    | exact (by decide : ¬ (toString (0:Nat)).data = (toString (1:Nat)).data) h2
    | exact (by decide : ¬ (toString (1:Nat)).data = (toString (0:Nat)).data) h2

theorem lookup_dictInsert_self {α : Type} (k : String) (v : α) :
    ∀ l : List (String × α), (dictInsert k v l).lookup k = some v := by
  intro l
  induction l with
  | nil => simp [dictInsert, List.lookup]
  | cons kv rest ih =>
    by_cases h : kv.1 = k
    · simp [dictInsert, h, List.lookup]
    · simp only [dictInsert, h, if_false]
      have hb : (k == kv.1) = false := by
        simp [beq_eq_false_iff_ne]
        exact fun hc => h hc.symm
      simpa [List.lookup, hb] using ih

theorem lookup_none_of_not_mem {β : Type} (k : Nat) :
    ∀ l : List (Nat × β), k ∉ l.map Prod.fst → l.lookup k = none := by
  intro l
  induction l with
  | nil => intro _; rfl
  | cons kv rest ih =>
    intro h
    simp only [List.map_cons, List.mem_cons] at h
    push_neg at h
    have hb : (k == kv.1) = false := by simp [beq_eq_false_iff_ne]; exact h.1
    simpa [List.lookup, hb] using ih h.2

theorem addPending_lookup (k k' : Nat) (p : Pending) :
    ∀ (l : List (Nat × List Pending)) (v : List Pending), l.lookup k = some v →
      (addPending k' p l).lookup k = some (if k' = k then v ++ [p] else v) := by
  intro l
  induction l with
  | nil => intro v hv; simp [List.lookup] at hv
  | cons kv rest ih =>
    obtain ⟨k0, v0⟩ := kv
    intro v hv
    by_cases hk : k = k0
    · have hb : (k == k0) = true := by simpa using hk
      have hv0 : v0 = v := by simpa [List.lookup, hb] using hv
      by_cases hk' : k0 = k'
      · have he : k' = k := by omega
        simp [addPending, hk', he, List.lookup, hb, hv0]
      · have hne : ¬ k' = k := by omega
        simp [addPending, hk', hne, List.lookup, hb, hv0]
    · have hb : (k == k0) = false := by simp [beq_eq_false_iff_ne]; exact hk
      have hv1 : rest.lookup k = some v := by simpa [List.lookup, hb] using hv
      by_cases hk' : k0 = k'
      · have hne : ¬ k' = k := by omega
        have hb2 : (k == k') = false := by simp [beq_eq_false_iff_ne]; omega
        simp [addPending, hk', hne, List.lookup, hb, hb2, hv1]
      · simpa [addPending, hk', List.lookup, hb] using ih v hv1

theorem addPending_keys (k : Nat) (p : Pending) :
    ∀ l : List (Nat × List Pending),
      (addPending k p l).map Prod.fst = l.map Prod.fst ∨
      (addPending k p l).map Prod.fst = l.map Prod.fst ++ [k] := by
  intro l
  induction l with
  | nil => right; simp [addPending]
  | cons kv rest ih =>
    by_cases h : kv.1 = k
    · left; simp [addPending, h]
    · rcases ih with h2 | h2
      · left; simp [addPending, h, h2]
      · right; simp [addPending, h, h2]

theorem addPending_keys_ite (k : Nat) (p : Pending) :
    ∀ l : List (Nat × List Pending),
      (addPending k p l).map Prod.fst =
        if k ∈ l.map Prod.fst then l.map Prod.fst else l.map Prod.fst ++ [k] := by
  intro l
  induction l with
  | nil => simp [addPending]
  | cons kv rest ih =>
    obtain ⟨k0, v0⟩ := kv
    by_cases hk0 : k0 = k
    · simp [addPending, hk0]
    · have hne : ¬ k = k0 := by omega
      by_cases hm : k ∈ rest.map Prod.fst <;>
        simp [addPending, hk0, hne, hm, ih]

theorem addPending_keys_nodup (k : Nat) (p : Pending) (l : List (Nat × List Pending))
    (h : (l.map Prod.fst).Nodup) : ((addPending k p l).map Prod.fst).Nodup := by
  rw [addPending_keys_ite]
  by_cases hm : k ∈ l.map Prod.fst
  · simpa [hm] using h
  · simp [hm, List.nodup_append, h]

theorem schedule_lookup (tick : Nat) (key : String) :
    ∀ (es : List Entry) (ac : List (Nat × List Pending)) (fi : List Nat)
      (k : Nat) (v : List Pending), ac.lookup k = some v →
      ∃ w, (schedule tick key es ac fi).1.lookup k = some (v ++ w) := by
  intro es
  induction es with
  | nil => intro ac fi k v hv; exact ⟨[], by simpa [schedule] using hv⟩
  | cons e es ih =>
    intro ac fi k v hv
    by_cases ht : e.ticks ≠ 0
    · have h2 := addPending_lookup k (tick + e.ticks) ⟨key, e.callback⟩ ac v hv
      obtain ⟨w, hw⟩ := ih (addPending (tick + e.ticks) ⟨key, e.callback⟩ ac) fi k _ h2
      refine ⟨(if tick + e.ticks = k then [(⟨key, e.callback⟩ : Pending)] else []) ++ w, ?_⟩
      simp only [schedule]
      rw [if_pos ht, hw]
      congr 1
      by_cases hk : tick + e.ticks = k <;> simp [hk]
    · obtain ⟨w, hw⟩ := ih ac (fi ++ [e.callback]) k v hv
      exact ⟨w, by simpa [schedule, ht] using hw⟩

theorem schedule_keys_lt (tick : Nat) (key : String) :
    ∀ (es : List Entry) (ac : List (Nat × List Pending)) (fi : List Nat),
      (∀ k ∈ ac.map Prod.fst, tick < k) →
      ∀ k ∈ (schedule tick key es ac fi).1.map Prod.fst, tick < k := by
  intro es
  induction es with
  | nil => intro ac fi h k hk; exact h k (by simpa [schedule] using hk)
  | cons e es ih =>
    intro ac fi h k hk
    by_cases ht : e.ticks ≠ 0
    · refine ih _ fi ?_ k (by simpa [schedule, ht] using hk)
      intro k' hk'
      rw [addPending_keys_ite] at hk'
      by_cases hm : tick + e.ticks ∈ ac.map Prod.fst
      · exact h k' (by simpa [hm] using hk')
      · simp only [hm, if_false, List.mem_append, List.mem_singleton] at hk'
        rcases hk' with hk' | hk'
        · exact h k' hk'
        · omega
    · exact ih ac _ h k (by simpa [schedule, ht] using hk)

theorem schedule_keys_nodup (tick : Nat) (key : String) :
    ∀ (es : List Entry) (ac : List (Nat × List Pending)) (fi : List Nat),
      (ac.map Prod.fst).Nodup → ((schedule tick key es ac fi).1.map Prod.fst).Nodup := by
  intro es
  induction es with
  | nil => intro ac fi h; simpa [schedule] using h
  | cons e es ih =>
    intro ac fi h
    by_cases ht : e.ticks ≠ 0
    · simpa [schedule, ht] using ih _ fi (addPending_keys_nodup _ _ _ h)
    · simpa [schedule, ht] using ih ac _ h

theorem sweep_keys_subset (opp : String) :
    ∀ (l l' : List (Nat × List Pending)), sweep opp l = .ok l' →
      ∀ k ∈ l'.map Prod.fst, k ∈ l.map Prod.fst := by
  intro l
  induction l with
  | nil =>
    intro l' h k hk
    simp only [sweep] at h
    cases h
    simp at hk
  | cons kv rest ih =>
    obtain ⟨k0, v0⟩ := kv
    intro l' h k hk
    simp only [sweep] at h
    rcases hc : countMatches opp v0 with _ | n
    · rw [hc] at h
      obtain ⟨l1, hl1, hcons⟩ := exceptMap_ok h
      rw [← hcons] at hk
      simp only [List.map_cons, List.mem_cons] at hk ⊢
      rcases hk with hk | hk
      · exact Or.inl hk
      · exact Or.inr (ih l1 hl1 k hk)
    · rcases n with _ | n
      · rw [hc] at h
        simp only [List.map_cons, List.mem_cons]
        exact Or.inr (ih l' h k hk)
      · rw [hc] at h
        cases h

theorem sweep_removes (opp : String) :
    ∀ (l l' : List (Nat × List Pending)), (l.map Prod.fst).Nodup →
      sweep opp l = .ok l' →
      ∀ (k : Nat) (v : List Pending), l.lookup k = some v → 0 < countMatches opp v →
        l'.lookup k = none := by
  intro l
  induction l with
  | nil => intro l' _ _ k v hv; simp [List.lookup] at hv
  | cons kv rest ih =>
    obtain ⟨k0, v0⟩ := kv
    intro l' hnd h k v hv hcount
    simp only [List.map_cons, List.nodup_cons] at hnd
    simp only [sweep] at h
    by_cases hk : k = k0
    · have hb : (k == k0) = true := by simpa using hk
      have hv0 : v0 = v := by simpa [List.lookup, hb] using hv
      rcases hc : countMatches opp v0 with _ | n
      · rw [← hv0, hc] at hcount; omega
      · rcases n with _ | n
        · rw [hc] at h
          have hnot : k ∉ l'.map Prod.fst := by
            intro hm
            exact hnd.1 (by simpa [hk] using sweep_keys_subset opp rest l' h k hm)
          exact lookup_none_of_not_mem k l' hnot
        · rw [hc] at h; cases h
    · have hb : (k == k0) = false := by simp [beq_eq_false_iff_ne]; exact hk
      have hv1 : rest.lookup k = some v := by simpa [List.lookup, hb] using hv
      rcases hc : countMatches opp v0 with _ | n
      · rw [hc] at h
        obtain ⟨l1, hl1, hcons⟩ := exceptMap_ok h
        rw [← hcons]
        simpa [List.lookup, hb] using ih l1 hnd.2 hl1 k v hv1 hcount
      · rcases n with _ | n
        · rw [hc] at h
          exact ih l' hnd.2 h k v hv1 hcount
        · rw [hc] at h; cases h

theorem tickTimers_raise (tick : Nat) :
    ∀ (pre post : List Timer) (tm : Timer),
      (∀ u ∈ pre, timerDue tick u = true → u.raises = false) →
      timerDue tick tm = true → tm.raises = true →
      tickTimers tick (pre ++ tm :: post) = (pre.map (stepTimer tick) ++ tm :: post, true) := by
  intro pre
  induction pre with
  | nil => intro post tm _ hdue hr; simp [tickTimers, hdue, hr]
  | cons u pre ih =>
    intro post tm hp hdue hr
    have hrec := ih post tm (fun x hx => hp x (List.mem_cons_of_mem u hx)) hdue hr
    by_cases hu : timerDue tick u = true
    · have hur : u.raises = false := hp u (List.mem_cons_self u pre) hu
      simp [tickTimers, hu, hur, hrec, stepTimer]
    · simp only [Bool.not_eq_true] at hu
      simp [tickTimers, hu, hrec, stepTimer]

theorem logicState_false (sw : SwitchDef) (stateIn : Nat) :
    logicState sw false stateIn = if sw.type = "NC" then stateIn ^^^ 1 else stateIn := by
  simp [logicState]

theorem process_switch_parts (name : String) (sIn : Nat) (logical : Bool)
    (st : SCState) (sw : SwitchDef) (st' : SCState)
    (hm : st.machine.lookup name = some sw)
    (h : process_switch name sIn logical st = .ok st') :
    ∃ ac', sweep (switchKey name (logicState sw logical sIn ^^^ 1))
        (schedPart (set_state name (logicState sw logical sIn) st)
          (switchKey name (logicState sw logical sIn))).1 = .ok ac' ∧
      st' = { set_state name (logicState sw logical sIn) st with
                active := ac'
                fired := (schedPart (set_state name (logicState sw logical sIn) st)
                  (switchKey name (logicState sw logical sIn))).2
                posted := post_switch_events sw (logicState sw logical sIn)
                  (set_state name (logicState sw logical sIn) st).posted } := by
  rw [process_switch, hm] at h
  obtain ⟨ac', hsw, hst⟩ := exceptMap_ok h
  exact ⟨ac', hsw, hst.symm⟩

theorem schedPart_lookup (st1 : SCState) (key : String) (k : Nat) (v : List Pending)
    (hv : st1.active.lookup k = some v) :
    ∃ w, (schedPart st1 key).1.lookup k = some (v ++ w) := by
  rw [schedPart]
  cases st1.registered.lookup key with
  | none => exact ⟨[], by simpa using hv⟩
  | some entries => exact schedule_lookup st1.tick key entries st1.active st1.fired k v hv

theorem schedPart_keys_nodup (st1 : SCState) (key : String)
    (h : (st1.active.map Prod.fst).Nodup) :
    (((schedPart st1 key).1.map Prod.fst)).Nodup := by
  rw [schedPart]
  cases st1.registered.lookup key with
  | none => exact h
  | some entries => exact schedule_keys_nodup st1.tick key entries st1.active st1.fired h

theorem schedPart_keys_lt (st1 : SCState) (key : String)
    (h : ∀ k ∈ st1.active.map Prod.fst, st1.tick < k) :
    ∀ k ∈ (schedPart st1 key).1.map Prod.fst, st1.tick < k := by
  rw [schedPart]
  cases st1.registered.lookup key with
  | none => exact h
  | some entries => exact schedule_keys_lt st1.tick key entries st1.active st1.fired h

theorem countMatches_pos (opp : String) (v : List Pending)
    (h : ∃ p ∈ v, p.switch_action = opp) : 0 < countMatches opp v := by
  rw [countMatches, List.countP_pos_iff]
  obtain ⟨p, hp, he⟩ := h
  exact ⟨p, hp, by simpa using he⟩

theorem countMatches_append (opp : String) (v w : List Pending) :
    countMatches opp (v ++ w) = countMatches opp v + countMatches opp w := by
  simp [countMatches, List.countP_append]

theorem tickStep_not_due (st : SCState)
    (h : ∀ k ∈ st.active.map Prod.fst, ¬ k ≤ st.tick + 1) :
    tickStep st = { st with tick := st.tick + 1 } := by
  rw [tickStep, controller_tick]
  have hdue : ({ st with tick := st.tick + 1 } : SCState).active.filter
      (fun kv => decide (kv.1 ≤ st.tick + 1)) = [] := by
    rw [List.filter_eq_nil_iff]
    intro kv hkv
    simpa using h kv.1 (List.mem_map_of_mem Prod.fst hkv)
  have hrest : ({ st with tick := st.tick + 1 } : SCState).active.filter
      (fun kv => !decide (kv.1 ≤ st.tick + 1)) = st.active := by
    rw [List.filter_eq_self]
    intro kv hkv
    simpa using h kv.1 (List.mem_map_of_mem Prod.fst hkv)
  rw [hdue, hrest]
  simp

theorem tickStep_all_due (st : SCState)
    (h : ∀ k ∈ st.active.map Prod.fst, k ≤ st.tick + 1) :
    tickStep st = { st with
      tick := st.tick + 1
      active := []
      fired := st.fired ++ st.active.flatMap (fun kv => kv.2.map (fun p => p.callback)) } := by
  rw [tickStep, controller_tick]
  have hdue : ({ st with tick := st.tick + 1 } : SCState).active.filter
      (fun kv => decide (kv.1 ≤ st.tick + 1)) = st.active := by
    rw [List.filter_eq_self]
    intro kv hkv
    simpa using h kv.1 (List.mem_map_of_mem Prod.fst hkv)
  have hrest : ({ st with tick := st.tick + 1 } : SCState).active.filter
      (fun kv => !decide (kv.1 ≤ st.tick + 1)) = [] := by
    rw [List.filter_eq_nil_iff]
    intro kv hkv
    simpa using h kv.1 (List.mem_map_of_mem Prod.fst hkv)
  rw [hdue, hrest]

/-! ## Claim theorems -/

/-- Claim C4. The claim states that `parse_duration("Xms")` equals
`msecs(X)`, i.e. that the `"ms"` suffix makes the duration parse as
milliseconds. The code upper-cases the string before the
case-sensitive `endswith("ms")`/`endswith("msec")` tests, so the
milliseconds branch can never be taken and `"200ms"` is parsed as 200
seconds: at `HZ = 50` (`secs_per_tick = 1/50`), `time_to_ticks`
returns 10000 ticks where `msecs(200) = 10`. The function's own
docstring gives `200ms` as an example of a milliseconds input, so this
is a bug in the code, not in the claim. The `"Xs"` and bare-`"X"`
forms do agree with `secs(X)`. -/
theorem C4_ms_suffix_dead_branch :
    time_to_ticks (1 / 50) "200ms".toList = .ok 10000 ∧
    msecs (1 / 50) 200 = 10 ∧
    secs (1 / 50) 200 = 10000 ∧
    (10000 : Int) ≠ 10 ∧
    time_to_ticks (1 / 50) "2s".toList = .ok (secs (1 / 50) 2) ∧
    time_to_ticks (1 / 50) "2".toList = .ok (secs (1 / 50) 2) := by
  refine ⟨?_, msecs_eval _ _ _ (by norm_num), secs_eval _ _ _ (by norm_num),
    by decide, ?_, ?_⟩
  · rw [time_to_ticks, if_neg (by decide),
      show parseFloat (stripAlpha ("200ms".toList.map Char.toUpper)) = .ok ((200 : Nat) : ℚ)
        from by decide]
    show Except.ok (secs (1 / 50) ((200 : Nat) : ℚ)) = _
    rw [secs_eval _ _ 10000 (by norm_num)]
  · rw [time_to_ticks, if_neg (by decide),
      show parseFloat (stripAlpha ("2s".toList.map Char.toUpper)) = .ok ((2 : Nat) : ℚ)
        from by decide]
    show Except.ok (secs (1 / 50) ((2 : Nat) : ℚ)) = _
    norm_num
  · rw [time_to_ticks, if_neg (by decide),
      show parseFloat (stripAlpha ("2".toList.map Char.toUpper)) = .ok ((2 : Nat) : ℚ)
        from by decide]
    show Except.ok (secs (1 / 50) ((2 : Nat) : ℚ)) = _
    norm_num

/-- Claim C5, counterexample. The claim states that `configure` raises
`MisconfiguredError` for `HZ ≤ 0` and for a second call with a
different value. The source performs no validation at all: `HZ = -5`
is accepted, and reconfiguring from 50 to 60 Hz is accepted. -/
theorem C5_counterexample :
    configure (-5) ⟨none, none⟩ = .ok ⟨some (-5), some (-(1 / 5))⟩ ∧
    configure 60 ⟨some 50, some (1 / 50)⟩ = .ok ⟨some 60, some (1 / 60)⟩ := by
  constructor
  · rw [configure, if_neg (by norm_num)]
    norm_num
  · rw [configure, if_neg (by norm_num)]

/-- Claim C5, amended: `configure` performs no validation and raises no
`MisconfiguredError`. Every call with `HZ ≠ 0` — including negative
`HZ` and repeated calls with different values — sets the tick rate to
the new value; `HZ = 0` raises `ZeroDivisionError` (from
`1 / float(HZ)`), not `MisconfiguredError`. -/
theorem C5_no_validation (HZ : ℚ) (c : TimingConf) :
    (HZ ≠ 0 → configure HZ c = .ok ⟨some HZ, some (1 / HZ)⟩) ∧
    configure 0 c = .error .zeroDivision := by
  constructor
  · intro h; simp [configure, h]
  · simp [configure]

theorem C5_no_validation_witness :
    configure 2 ⟨none, none⟩ = .ok ⟨some 2, some (1 / 2)⟩ :=
  (C5_no_validation 2 ⟨none, none⟩).1 (by norm_num)

/-- Claim C10. The claim states that constructing a `Timer` with an
absent frequency succeeds and yields a dormant timer. In the source,
`Timer.__init__` evaluates `frequency / 1000 * Timing.HZ`, and with
`frequency = None` the expression `None / 1000` raises `TypeError`, so
construction fails. The class docstring — "The frequency can be set to
None so that the timer is not enabled, but it still exists." — shows
the claim describes the intent and the code is a slip. -/
theorem C10_none_frequency_raises :
    timerInit 50 0 false none = .error .typeError ∧
    timerInit 50 0 false (some 100) = .ok ⟨0, none, 100 / 1000 * 50, false⟩ := by
  refine ⟨rfl, rfl⟩

/-- Claim C6, counterexample. The claim states that when a periodic
timer's callback raises during `tick()`, the timer's `wakeup_tick` has
already been advanced by `frequency_ticks` at the moment the exception
escapes. In the source the advancement `timer.wakeup += timer.frequency`
runs only after `timer.call()` returns normally, so on a raise the
wakeup is unchanged: a due timer with `wakeup = 1`, `frequency = 1`
whose callback raises is left with `wakeup = 1`, not `1 + 1`. -/
theorem C6_counterexample :
    (timer_tick ⟨0, [⟨0, some 1, 1, true⟩]⟩).2 = true ∧
    (timer_tick ⟨0, [⟨0, some 1, 1, true⟩]⟩).1.timers = [⟨0, some 1, 1, true⟩] ∧
    [Timer.wakeup ⟨0, some 1, 1, true⟩] ≠ [some ((1 : ℚ) + 1)] := by
  have hd : timerDue 1 (⟨0, some 1, 1, true⟩ : Timer) = true := by
    simp only [timerDue]
    norm_num
  refine ⟨?_, ?_, ?_⟩
  · simp [timer_tick, tickTimers, hd]
  · simp [timer_tick, tickTimers, hd]
  · norm_num

/-- Claim C6, amended: a callback exception propagates out of
`timer_tick`, the raising timer remains in the timer set, but at the
moment the exception escapes its `wakeup` has NOT been advanced — it
still holds its pre-call value (advancement happens only after the
callback returns normally), and timers after it in iteration order are
untouched while earlier non-raising due timers have been processed. -/
theorem C6_exception_leaves_wakeup (t : Nat) (pre post : List Timer) (tm : Timer)
    (hpre : ∀ u ∈ pre, timerDue (t + 1) u = true → u.raises = false)
    (hdue : timerDue (t + 1) tm = true) (hr : tm.raises = true) :
    timer_tick ⟨t, pre ++ tm :: post⟩ =
      (⟨t + 1, pre.map (stepTimer (t + 1)) ++ tm :: post⟩, true) ∧
    tm ∈ (timer_tick ⟨t, pre ++ tm :: post⟩).1.timers := by
  have h := tickTimers_raise (t + 1) pre post tm hpre hdue hr
  constructor
  · simp [timer_tick, h]
  · simp [timer_tick, h]

theorem C6_exception_leaves_wakeup_witness :
    timer_tick ⟨0, [⟨0, some 1, 1, true⟩]⟩ = (⟨1, [⟨0, some 1, 1, true⟩]⟩, true) := by
  have h := C6_exception_leaves_wakeup 0 [] [] ⟨0, some 1, 1, true⟩
    (by intro u hu; cases hu) (by simp only [timerDue]; norm_num) rfl
  simpa using h.1

/-- Claim C7, counterexample. The claim states the filter coefficient
`α` is taken from the accelerometer's configured `alpha`. The source
hardcodes the local `alpha = 0.95` and never reads the configuration:
with configured `alpha = 1/2`, filtered state `(1,0,0)` and sample
`(0,0,0)`, the new filtered x-component is `19/20`, not the
`1·(1/2) + 0·(1 − 1/2) = 1/2` the claim predicts. -/
theorem C7_alpha_hardcoded :
    AccelConfig.alpha ⟨1 / 2, 0, 0, 1, [], []⟩ = 1 / 2 ∧
    (update_acceleration ⟨1 / 2, 0, 0, 1, [], []⟩ ⟨none, some (1, 0, 0)⟩ 0 0 0).1.history =
      some (19 / 20, 0, 0) ∧
    ¬ ((19 : ℚ) / 20 = 1 * (1 / 2) + 0 * (1 - 1 / 2)) := by
  refine ⟨rfl, ?_, by norm_num⟩
  simp only [update_acceleration]
  norm_num

/-- Claim C7, amended: after the first sample the deltas do equal the
new sample minus the pre-update filtered state, and the filtered state
becomes `filtered·α + sample·(1−α)` — but with the constant `α = 0.95`
hardcoded in `update_acceleration`; the configured `alpha` is ignored
(the result is independent of it). -/
theorem C7_filter_and_deltas (cfg : AccelConfig) (st : AccelState) (hx hy hz x y z : ℚ)
    (h : st.history = some (hx, hy, hz)) :
    update_acceleration cfg st x y z =
      ({ value := some (x, y, z)
         history := some (hx * (19 / 20) + x * (1 - 19 / 20),
                          hy * (19 / 20) + y * (1 - 19 / 20),
                          hz * (19 / 20) + z * (1 - 19 / 20)) },
       (x - hx, y - hy, z - hz)) ∧
    ∀ a : ℚ, update_acceleration { cfg with alpha := a } st x y z =
      update_acceleration cfg st x y z := by
  constructor
  · simp [update_acceleration, h]
  · intro a; rfl

theorem C7_filter_and_deltas_witness :
    update_acceleration ⟨1 / 2, 0, 0, 1, [], []⟩ ⟨none, some (1, 0, 0)⟩ 0 0 0 =
      ({ value := some (0, 0, 0)
         history := some (1 * (19 / 20) + 0 * (1 - 19 / 20),
                          0 * (19 / 20) + 0 * (1 - 19 / 20),
                          0 * (19 / 20) + 0 * (1 - 19 / 20)) },
       (0 - 1, 0 - 0, 0 - 0)) :=
  (C7_filter_and_deltas ⟨1 / 2, 0, 0, 1, [], []⟩ ⟨none, some (1, 0, 0)⟩ 1 0 0 0 0 0 rfl).1

/-- Claim C8, counterexample. The claim states that when the reference
vector has length 0, level detection is skipped with no event and no
error. In the source `_calculate_angle` divides by the product of the
vector lengths with no zero check, so a zero reference vector makes
`_handle_level` raise `ZeroDivisionError`. -/
theorem C8_zero_vector_raises :
    handle_level ⟨19 / 20, 0, 0, 0, [], []⟩ 1 0 0 = .error .zeroDivision := by
  have h1 : calculate_angle ((0 : ℚ), (0 : ℚ), (0 : ℚ)) ((1 : ℚ), (0 : ℚ), (0 : ℚ)) =
      .error .zeroDivision := by
    rw [calculate_angle, if_pos (by norm_num [vecLenSq])]
  simp only [handle_level, h1, Bind.bind, Except.bind]

/-- Claim C8, amended: `_handle_level` raises `ZeroDivisionError`
exactly when one of the three vector pairs it feeds to
`_calculate_angle` — (level reference, sample), their y-z projections,
or their x-z projections — has a zero-length member; no sample is
skipped and no error is suppressed. There is no clamp in the source;
in the exact arithmetic of the model the `acos` argument needs none,
since whenever `_calculate_angle` succeeds its cosine data `(d, p)`
(argument `d / √p`) satisfies `d² ≤ p` and `p > 0` by Cauchy–Schwarz.
(Whether floating-point rounding can push the argument outside
`[−1, 1]` is outside this exact model.) -/
theorem C8_no_skip_no_clamp :
    (∀ (cfg : AccelConfig) (x y z : ℚ),
      (handle_level cfg x y z = .error .zeroDivision ↔
        vecLenSq (cfg.level_x, cfg.level_y, cfg.level_z) * vecLenSq (x, y, z) = 0 ∨
        vecLenSq (0, cfg.level_y, cfg.level_z) * vecLenSq (0, y, z) = 0 ∨
        vecLenSq (cfg.level_x, 0, cfg.level_z) * vecLenSq (x, 0, z) = 0)) ∧
    (∀ (v w : ℚ × ℚ × ℚ) (d p : ℚ), calculate_angle v w = .ok (d, p) →
      d * d ≤ p ∧ 0 < p) := by
  constructor
  · intro cfg x y z
    by_cases h1 : vecLenSq (cfg.level_x, cfg.level_y, cfg.level_z) * vecLenSq (x, y, z) = 0
    · have e1 : calculate_angle (cfg.level_x, cfg.level_y, cfg.level_z) (x, y, z) =
          .error .zeroDivision := by rw [calculate_angle, if_pos h1]
      simp only [handle_level, e1, Bind.bind, Except.bind]
      simp [h1]
    · have o1 : calculate_angle (cfg.level_x, cfg.level_y, cfg.level_z) (x, y, z) =
          .ok (dot3 (cfg.level_x, cfg.level_y, cfg.level_z) (x, y, z),
               vecLenSq (cfg.level_x, cfg.level_y, cfg.level_z) * vecLenSq (x, y, z)) := by
        rw [calculate_angle, if_neg h1]
      by_cases h2 : vecLenSq (0, cfg.level_y, cfg.level_z) * vecLenSq (0, y, z) = 0
      · have e2 : calculate_angle ((0 : ℚ), cfg.level_y, cfg.level_z) ((0 : ℚ), y, z) =
            .error .zeroDivision := by rw [calculate_angle, if_pos h2]
        simp only [handle_level, o1, e2, Bind.bind, Except.bind]
        simp [h1, h2]
      · have o2 : calculate_angle ((0 : ℚ), cfg.level_y, cfg.level_z) ((0 : ℚ), y, z) =
            .ok (dot3 ((0 : ℚ), cfg.level_y, cfg.level_z) ((0 : ℚ), y, z),
                 vecLenSq (0, cfg.level_y, cfg.level_z) * vecLenSq (0, y, z)) := by
          rw [calculate_angle, if_neg h2]
        by_cases h3 : vecLenSq (cfg.level_x, 0, cfg.level_z) * vecLenSq (x, 0, z) = 0
        · have e3 : calculate_angle (cfg.level_x, (0 : ℚ), cfg.level_z) (x, (0 : ℚ), z) =
              .error .zeroDivision := by rw [calculate_angle, if_pos h3]
          simp only [handle_level, o1, o2, e3, Bind.bind, Except.bind]
          simp [h1, h2, h3]
        · have o3 : calculate_angle (cfg.level_x, (0 : ℚ), cfg.level_z) (x, (0 : ℚ), z) =
              .ok (dot3 (cfg.level_x, (0 : ℚ), cfg.level_z) (x, (0 : ℚ), z),
                   vecLenSq (cfg.level_x, 0, cfg.level_z) * vecLenSq (x, 0, z)) := by
            rw [calculate_angle, if_neg h3]
          simp only [handle_level, o1, o2, o3, Bind.bind, Except.bind, Pure.pure, Except.pure]
          simp [h1, h2, h3]
  · intro v w d p h
    obtain ⟨a1, a2, a3⟩ := v
    obtain ⟨b1, b2, b3⟩ := w
    rw [calculate_angle] at h
    by_cases hz : vecLenSq (a1, a2, a3) * vecLenSq (b1, b2, b3) = 0
    · rw [if_pos hz] at h; cases h
    · rw [if_neg hz] at h
      simp only [Except.ok.injEq, Prod.mk.injEq] at h
      obtain ⟨hd, hp⟩ := h
      subst hd
      subst hp
      refine ⟨?_, ?_⟩
      · simp only [dot3, vecLenSq]
        nlinarith [sq_nonneg (a1 * b2 - a2 * b1), sq_nonneg (a1 * b3 - a3 * b1),
          sq_nonneg (a2 * b3 - a3 * b2)]
      · have hv : 0 ≤ vecLenSq (a1, a2, a3) := by
          simp only [vecLenSq]
          nlinarith [mul_self_nonneg a1, mul_self_nonneg a2, mul_self_nonneg a3]
        have hw : 0 ≤ vecLenSq (b1, b2, b3) := by
          simp only [vecLenSq]
          nlinarith [mul_self_nonneg b1, mul_self_nonneg b2, mul_self_nonneg b3]
        exact lt_of_le_of_ne (mul_nonneg hv hw) (fun hc => hz hc.symm)

theorem C8_no_skip_no_clamp_witness :
    (32 : ℚ) * 32 ≤ 1078 ∧ (0 : ℚ) < 1078 :=
  C8_no_skip_no_clamp.2 (1, 2, 3) (4, 5, 6) 32 1078
    (by rw [calculate_angle, if_neg (by norm_num [vecLenSq])]
        simp only [dot3, vecLenSq]
        norm_num)

/-- Claim C3, counterexample. The claim asserts that after
`process_switch(name, s)` (default `logical=false`), `is_state(name, s)`
is true for every switch, including NC switches. For an NC switch the
incoming raw state is inverted before it is stored, so after
`process_switch("s", 1)` on an NC switch the stored state is 0:
`is_state("s", 1)` is false (and `is_state("s", 0)` is true). -/
theorem C3_nc_counterexample :
    process_switch "s" 1 false ⟨0, [("s", ⟨"NC", []⟩)], [], [], [], [], []⟩ =
      .ok ⟨0, [("s", ⟨"NC", []⟩)], [], [], [("s", ⟨0, 0⟩)], [], []⟩ ∧
    is_state ⟨0, [("s", ⟨"NC", []⟩)], [], [], [("s", ⟨0, 0⟩)], [], []⟩ "s" 1 = some false ∧
    is_state ⟨0, [("s", ⟨"NC", []⟩)], [], [], [("s", ⟨0, 0⟩)], [], []⟩ "s" 0 = some true ∧
    ticks_since_change ⟨0, [("s", ⟨"NC", []⟩)], [], [], [("s", ⟨0, 0⟩)], [], []⟩ "s" =
      some 0 := by
  refine ⟨rfl, rfl, rfl, rfl⟩

/-- Claim C3, amended: immediately after `process_switch(name, s)` with
`logical=false`, queried on the same tick, `ticks_since_change(name)`
is 0 and `is_state(name, s')` is true for the *logical* state
`s' = s ^ 1` for NC switches and `s' = s` otherwise — so the claim's
`is_state(name, s)` holds for NO switches but not for NC switches. -/
theorem C3_same_tick_state (name : String) (sIn : Nat) (st : SCState) (sw : SwitchDef)
    (st' : SCState) (hm : st.machine.lookup name = some sw)
    (h : process_switch name sIn false st = .ok st') :
    is_state st' name (if sw.type = "NC" then sIn ^^^ 1 else sIn) = some true ∧
    ticks_since_change st' name = some 0 := by
  obtain ⟨ac', hsweep, hst⟩ := process_switch_parts name sIn false st sw st' hm h
  subst hst
  rw [← logicState_false sw sIn]
  constructor
  · simp only [is_state, set_state]
    rw [lookup_dictInsert_self]
    simp
  · simp only [ticks_since_change, set_state]
    rw [lookup_dictInsert_self]
    simp

theorem C3_same_tick_state_witness :
    is_state ⟨0, [("s", ⟨"NO", []⟩)], [], [], [("s", ⟨1, 0⟩)], [], []⟩ "s"
        (if SwitchDef.type ⟨"NO", []⟩ = "NC" then 1 ^^^ 1 else 1) = some true ∧
    ticks_since_change ⟨0, [("s", ⟨"NO", []⟩)], [], [], [("s", ⟨1, 0⟩)], [], []⟩ "s" =
      some 0 :=
  C3_same_tick_state "s" 1 ⟨0, [("s", ⟨"NO", []⟩)], [], [], [], [], []⟩ ⟨"NO", []⟩
    ⟨0, [("s", ⟨"NO", []⟩)], [], [], [("s", ⟨1, 0⟩)], [], []⟩ rfl rfl

/-- Claim C2: in `process_switch(name, s)` (with `logical=false`, the
new logical state being `ns`), the cancellation sweep deletes the
*entire bucket* at every key of `active_timed_switches` whose bucket
contains at least one pending fire for the opposite action
`(name, ns ^ 1)` — including pending fires in that bucket that belong
to other switches or other switch actions, which are removed with it.
Stated for every bucket present at call time, for any completed
(non-raising) call, on well-formed states (distinct dict keys). -/
theorem C2_whole_bucket_removed (name : String) (sIn : Nat) (st : SCState)
    (sw : SwitchDef) (st' : SCState) (hm : st.machine.lookup name = some sw)
    (hnd : (st.active.map Prod.fst).Nodup)
    (h : process_switch name sIn false st = .ok st') :
    ∀ (k : Nat) (v : List Pending), st.active.lookup k = some v →
      (∃ p ∈ v, p.switch_action = switchKey name (logicState sw false sIn ^^^ 1)) →
      st'.active.lookup k = none := by
  obtain ⟨ac', hsweep, hst⟩ := process_switch_parts name sIn false st sw st' hm h
  subst hst
  intro k v hv hmatch
  obtain ⟨w, hw⟩ := schedPart_lookup (set_state name (logicState sw false sIn) st)
    (switchKey name (logicState sw false sIn)) k v hv
  have hcount : 0 < countMatches (switchKey name (logicState sw false sIn ^^^ 1)) (v ++ w) := by
    rw [countMatches_append]
    have := countMatches_pos (switchKey name (logicState sw false sIn ^^^ 1)) v hmatch
    omega
  exact sweep_removes _ _ ac'
    (schedPart_keys_nodup (set_state name (logicState sw false sIn) st) _ hnd)
    hsweep k (v ++ w) hw hcount

theorem C2_whole_bucket_removed_witness :
    List.lookup 5
      (SCState.active ⟨0, [("s", ⟨"NO", []⟩)], [],
        [(5, [⟨switchKey "s" 0, 7⟩, ⟨switchKey "other" 1, 8⟩])], [], [], []⟩) =
      some [⟨switchKey "s" 0, 7⟩, ⟨switchKey "other" 1, 8⟩] ∧
    List.lookup 5
      (SCState.active ⟨0, [("s", ⟨"NO", []⟩)], [], [], [("s", ⟨1, 0⟩)], [], []⟩) = none := by
  refine ⟨rfl, ?_⟩
  exact C2_whole_bucket_removed "s" 1
    ⟨0, [("s", ⟨"NO", []⟩)], [], [(5, [⟨switchKey "s" 0, 7⟩, ⟨switchKey "other" 1, 8⟩])],
      [], [], []⟩
    ⟨"NO", []⟩ ⟨0, [("s", ⟨"NO", []⟩)], [], [], [("s", ⟨1, 0⟩)], [], []⟩ rfl
    (by simp) rfl 5 [⟨switchKey "s" 0, 7⟩, ⟨switchKey "other" 1, 8⟩] rfl
    ⟨⟨switchKey "s" 0, 7⟩, by simp, rfl⟩

/-- Claim C9: after every completed public operation — `process_switch`
(when it returns, i.e. does not raise), `add_switch_handler`, and the
per-tick hook (tick increment followed by `_tick`) — every key of
`active_timed_switches` is strictly greater than the current tick.
Keys `≤ current_tick` exist only while the hook itself runs: `tickStep`
re-establishes the invariant unconditionally at its end. -/
theorem C9_keys_future :
    (∀ (name : String) (sIn : Nat) (logical : Bool) (st st' : SCState),
      KeysFuture st → process_switch name sIn logical st = .ok st' → KeysFuture st') ∧
    (∀ (HZ : Nat) (name : String) (cb s ms : Nat) (st : SCState),
      KeysFuture st → KeysFuture (add_switch_handler HZ name cb s ms st)) ∧
    (∀ st : SCState, KeysFuture (tickStep st)) := by
  refine ⟨?_, ?_, ?_⟩
  · intro name sIn logical st st' hkf h
    have hm : ∃ sw, st.machine.lookup name = some sw := by
      rcases hsw : st.machine.lookup name with _ | sw
      · rw [process_switch, hsw] at h; cases h
      · exact ⟨sw, rfl⟩
    obtain ⟨sw, hm⟩ := hm
    obtain ⟨ac', hsweep, hst⟩ := process_switch_parts name sIn logical st sw st' hm h
    subst hst
    intro k hk
    have hsub := sweep_keys_subset _ _ _ hsweep k hk
    exact schedPart_keys_lt (set_state name (logicState sw logical sIn) st) _ hkf k hsub
  · intro HZ name cb s ms st hkf
    exact hkf
  · intro st k hk
    simp only [tickStep, controller_tick, List.mem_map] at hk
    obtain ⟨kv, hkv, hfst⟩ := hk
    rw [List.mem_filter] at hkv
    have := hkv.2
    simp only [Bool.not_eq_true', decide_eq_false_iff_not] at this
    show st.tick + 1 < k
    omega

theorem C9_keys_future_witness :
    KeysFuture ⟨0, [("s", ⟨"NO", []⟩)], [], [], [("s", ⟨1, 0⟩)], [], []⟩ ∧
    KeysFuture (add_switch_handler 50 "s" 7 1 100
      ⟨0, [("s", ⟨"NO", []⟩)], [], [(3, [⟨switchKey "s" 1, 7⟩])], [], [], []⟩) ∧
    KeysFuture (tickStep ⟨3, [], [], [(2, [⟨switchKey "s" 1, 7⟩])], [], [], []⟩) := by
  refine ⟨?_, ?_, ?_⟩
  · exact C9_keys_future.1 "s" 1 false ⟨0, [("s", ⟨"NO", []⟩)], [], [], [], [], []⟩
      ⟨0, [("s", ⟨"NO", []⟩)], [], [], [("s", ⟨1, 0⟩)], [], []⟩
      (by intro k hk; simp at hk) rfl
  · exact C9_keys_future.2.1 50 "s" 7 1 100
      ⟨0, [("s", ⟨"NO", []⟩)], [], [(3, [⟨switchKey "s" 1, 7⟩])], [], [], []⟩
      (by intro k hk; simp at hk; subst hk; decide)
  · exact C9_keys_future.2.2 ⟨3, [], [], [(2, [⟨switchKey "s" 1, 7⟩])], [], [], []⟩

theorem iterate_single_bucket (m : List (String × SwitchDef))
    (r : List (String × List Entry)) (sw : List (String × SwState)) (p : List String)
    (t d : Nat) (b : List Pending) (hd : 0 < d) :
    ∀ i, tickStep^[i] (⟨t, m, r, [(t + d, b)], sw, [], p⟩ : SCState) =
      if i < d then ⟨t + i, m, r, [(t + d, b)], sw, [], p⟩
      else ⟨t + i, m, r, [], sw, b.map (fun q => q.callback), p⟩ := by
  intro i
  induction i with
  | zero =>
    rw [Function.iterate_zero_apply, if_pos hd]
    exact rfl
  | succ i ih =>
    rw [Function.iterate_succ_apply', ih]
    by_cases h1 : i < d
    · rw [if_pos h1]
      by_cases h2 : i + 1 < d
      · rw [if_pos h2, tickStep_not_due _ (by intro k hk; simp at hk ⊢; omega)]
        exact rfl
      · rw [if_neg h2, tickStep_all_due _ (by intro k hk; simp at hk ⊢; omega)]
        show (⟨t + i + 1, m, r, [], sw,
            [] ++ (List.map (fun q => q.callback) b ++ []), p⟩ : SCState) =
          ⟨t + (i + 1), m, r, [], sw, List.map (fun q => q.callback) b, p⟩
        rw [List.nil_append, List.append_nil]
        exact rfl
    · rw [if_neg h1, if_neg (by omega), tickStep_not_due _ (by intro k hk; simp at hk)]
      exact rfl

/-- Scenario lemma: a handler registered on `(switch_name, target_state)`
with dwell `d > 0` ticks, `process_switch` entering the target state at
tick `t` with **no pending fires outstanding**, and no further state
report. For every `i`, the state after `i` per-tick hooks has tick
`t + i` and a fired log that is empty for `i < d` and exactly
`[callback]` for `i ≥ d`. -/
theorem dwell_fires_once_when_no_pending (name : String) (s c d t : Nat)
    (tg : List String) (M : List (String × SwitchDef))
    (R : List (String × List Entry)) (sws : List (String × SwState))
    (hd : 0 < d) (hs : s = 0 ∨ s = 1) :
    ∃ st1, process_switch name s false
        ⟨t, (name, ⟨"NO", tg⟩) :: M, (switchKey name s, [⟨d, c⟩]) :: R, [], sws, [], []⟩ =
        .ok st1 ∧
      st1.active = [(t + d, [⟨switchKey name s, c⟩])] ∧
      st1.fired = [] ∧
      ∀ i, (tickStep^[i] st1).tick = t + i ∧
        (tickStep^[i] st1).fired = if i < d then [] else [c] := by
  have hb : (switchKey name s == switchKey name (s ^^^ 1)) = false := by
    rcases hs with rfl | rfl <;>
      exact beq_eq_false_iff_ne.mpr
        (switchKey_state_ne name _ _ (by decide) (by decide) (by decide))
  have hd0 : d ≠ 0 := by omega
  have h0 : List.lookup name ((name, (⟨"NO", tg⟩ : SwitchDef)) :: M) =
      some ⟨"NO", tg⟩ := by simp [List.lookup]
  have hls : logicState ⟨"NO", tg⟩ false s = s := by simp [logicState]
  have hcm : countMatches (switchKey name (s ^^^ 1)) [⟨switchKey name s, c⟩] = 0 := by
    simp [countMatches, List.countP_cons, hb]
  have hswp : sweep (switchKey name (s ^^^ 1)) [(t + d, [⟨switchKey name s, c⟩])] =
      .ok [(t + d, [⟨switchKey name s, c⟩])] := by
    simp [sweep, hcm, Except.map]
  have hsched : schedPart
      ⟨t, (name, ⟨"NO", tg⟩) :: M, (switchKey name s, [⟨d, c⟩]) :: R, [],
        dictInsert name ⟨s, t⟩ sws, [], []⟩ (switchKey name s) =
      ([(t + d, [⟨switchKey name s, c⟩])], []) := by
    simp [schedPart, List.lookup, schedule, addPending, hd0]
  refine ⟨⟨t, (name, ⟨"NO", tg⟩) :: M, (switchKey name s, [⟨d, c⟩]) :: R,
    [(t + d, [⟨switchKey name s, c⟩])], dictInsert name ⟨s, t⟩ sws, [],
    post_switch_events ⟨"NO", tg⟩ s []⟩, ?_, rfl, rfl, ?_⟩
  · simp only [process_switch, h0, hls, set_state]
    rw [hsched]
    rw [hswp]
    rfl
  · intro i
    rw [iterate_single_bucket _ _ _ _ t d [⟨switchKey name s, c⟩] hd i]
    by_cases hi : i < d
    · rw [if_pos hi, if_pos hi]
      exact ⟨rfl, rfl⟩
    · rw [if_neg hi, if_neg hi]
      exact ⟨rfl, rfl⟩

/-- Iterating the per-tick hook over a state with no pending timed
switches only advances the tick: nothing fires. -/
theorem iterate_empty_active (m : List (String × SwitchDef))
    (r : List (String × List Entry)) (sw : List (String × SwState))
    (f : List Nat) (p : List String) (t : Nat) :
    ∀ i, tickStep^[i] (⟨t, m, r, [], sw, f, p⟩ : SCState) =
      ⟨t + i, m, r, [], sw, f, p⟩ := by
  intro i
  induction i with
  | zero => exact rfl
  | succ i ih =>
    rw [Function.iterate_succ_apply', ih,
      tickStep_not_due _ (by intro k hk; simp at hk)]
    exact rfl

/-- Claim C1, counterexample. In `process_switch` the scheduling loop
runs *before* the cancellation sweep, and the sweep deletes whole
buckets. With handler A on `("S", 0)`, dwell 5, callback 0 and handler
B on `("S", 1)`, dwell 3, callback 1: a report of state 0 at tick 2
puts A's pending fire in bucket 7; two ticks later, a report of
state 1 at tick 4 schedules B's fire into the same bucket 7, and the
sweep for the opposite action `"S-0"` then deletes bucket 7 whole —
B's just-scheduled fire included. Through tick 7 = t + d nothing ever
fires, although the switch entered state 1 at tick 4 and received no
further state report: the claim's "invokes the callback exactly once,
on tick t+d" fails. -/
theorem C1_counterexample :
    process_switch "S" 0 false
        ⟨2, [("S", ⟨"NO", []⟩)],
          [(switchKey "S" 0, [⟨5, 0⟩]), (switchKey "S" 1, [⟨3, 1⟩])], [], [], [], []⟩ =
      .ok ⟨2, [("S", ⟨"NO", []⟩)],
        [(switchKey "S" 0, [⟨5, 0⟩]), (switchKey "S" 1, [⟨3, 1⟩])],
        [(7, [⟨switchKey "S" 0, 0⟩])], [("S", ⟨0, 2⟩)], [], []⟩ ∧
    tickStep (tickStep ⟨2, [("S", ⟨"NO", []⟩)],
        [(switchKey "S" 0, [⟨5, 0⟩]), (switchKey "S" 1, [⟨3, 1⟩])],
        [(7, [⟨switchKey "S" 0, 0⟩])], [("S", ⟨0, 2⟩)], [], []⟩) =
      ⟨4, [("S", ⟨"NO", []⟩)],
        [(switchKey "S" 0, [⟨5, 0⟩]), (switchKey "S" 1, [⟨3, 1⟩])],
        [(7, [⟨switchKey "S" 0, 0⟩])], [("S", ⟨0, 2⟩)], [], []⟩ ∧
    process_switch "S" 1 false
        ⟨4, [("S", ⟨"NO", []⟩)],
          [(switchKey "S" 0, [⟨5, 0⟩]), (switchKey "S" 1, [⟨3, 1⟩])],
          [(7, [⟨switchKey "S" 0, 0⟩])], [("S", ⟨0, 2⟩)], [], []⟩ =
      .ok ⟨4, [("S", ⟨"NO", []⟩)],
        [(switchKey "S" 0, [⟨5, 0⟩]), (switchKey "S" 1, [⟨3, 1⟩])],
        [], [("S", ⟨1, 4⟩)], [], []⟩ ∧
    (tickStep^[3] (⟨4, [("S", ⟨"NO", []⟩)],
        [(switchKey "S" 0, [⟨5, 0⟩]), (switchKey "S" 1, [⟨3, 1⟩])],
        [], [("S", ⟨1, 4⟩)], [], []⟩ : SCState)).tick = 7 ∧
    (tickStep^[3] (⟨4, [("S", ⟨"NO", []⟩)],
        [(switchKey "S" 0, [⟨5, 0⟩]), (switchKey "S" 1, [⟨3, 1⟩])],
        [], [("S", ⟨1, 4⟩)], [], []⟩ : SCState)).fired = [] := by
  refine ⟨rfl, rfl, rfl, rfl, rfl⟩

/-- Claim C1, amended: for a handler registered on
`(switch_name, target_state)` with dwell `d > 0`, if `process_switch`
puts the switch into the target state at tick `t` with **no pending
timed fires outstanding** and no further state report arrives, the
per-tick hook invokes the callback exactly once, on tick `t + d`, and
on no earlier tick. But because the scheduling loop runs before the
cancellation sweep and the sweep deletes entire buckets, if a pending
fire for the opposite action is outstanding in bucket `t + d` when the
call arrives, the just-scheduled fire is deleted with that bucket and
the handler never fires at all. -/
theorem C1_dwell_with_cancellation :
    (∀ (name : String) (s c d t : Nat) (tg : List String)
       (M : List (String × SwitchDef)) (R : List (String × List Entry))
       (sws : List (String × SwState)), 0 < d → s = 0 ∨ s = 1 →
      ∃ st1, process_switch name s false
          ⟨t, (name, ⟨"NO", tg⟩) :: M, (switchKey name s, [⟨d, c⟩]) :: R, [], sws, [], []⟩ =
          .ok st1 ∧
        st1.active = [(t + d, [⟨switchKey name s, c⟩])] ∧
        st1.fired = [] ∧
        ∀ i, (tickStep^[i] st1).tick = t + i ∧
          (tickStep^[i] st1).fired = if i < d then [] else [c]) ∧
    (∀ (name : String) (s c c' d t : Nat) (tg : List String)
       (M : List (String × SwitchDef)) (R : List (String × List Entry))
       (sws : List (String × SwState)), 0 < d → s = 0 ∨ s = 1 →
      ∃ st1, process_switch name s false
          ⟨t, (name, ⟨"NO", tg⟩) :: M, (switchKey name s, [⟨d, c⟩]) :: R,
            [(t + d, [⟨switchKey name (s ^^^ 1), c'⟩])], sws, [], []⟩ = .ok st1 ∧
        st1.active = [] ∧
        ∀ i, (tickStep^[i] st1).tick = t + i ∧ (tickStep^[i] st1).fired = []) := by
  constructor
  · intro name s c d t tg M R sws hd hs
    exact dwell_fires_once_when_no_pending name s c d t tg M R sws hd hs
  · intro name s c c' d t tg M R sws hd hs
    have hb : (switchKey name s == switchKey name (s ^^^ 1)) = false := by
      rcases hs with rfl | rfl <;>
        exact beq_eq_false_iff_ne.mpr
          (switchKey_state_ne name _ _ (by decide) (by decide) (by decide))
    have hd0 : d ≠ 0 := by omega
    have h0 : List.lookup name ((name, (⟨"NO", tg⟩ : SwitchDef)) :: M) =
        some ⟨"NO", tg⟩ := by simp [List.lookup]
    have hls : logicState ⟨"NO", tg⟩ false s = s := by simp [logicState]
    have hcm : countMatches (switchKey name (s ^^^ 1))
        [⟨switchKey name (s ^^^ 1), c'⟩, ⟨switchKey name s, c⟩] = 1 := by
      simp [countMatches, List.countP_cons, hb]
    have hswp : sweep (switchKey name (s ^^^ 1))
        [(t + d, [⟨switchKey name (s ^^^ 1), c'⟩, ⟨switchKey name s, c⟩])] = .ok [] := by
      simp [sweep, hcm]
    have hsched : schedPart
        ⟨t, (name, ⟨"NO", tg⟩) :: M, (switchKey name s, [⟨d, c⟩]) :: R,
          [(t + d, [⟨switchKey name (s ^^^ 1), c'⟩])],
          dictInsert name ⟨s, t⟩ sws, [], []⟩ (switchKey name s) =
        ([(t + d, [⟨switchKey name (s ^^^ 1), c'⟩, ⟨switchKey name s, c⟩])], []) := by
      simp [schedPart, List.lookup, schedule, addPending, hd0]
    refine ⟨⟨t, (name, ⟨"NO", tg⟩) :: M, (switchKey name s, [⟨d, c⟩]) :: R, [],
      dictInsert name ⟨s, t⟩ sws, [], post_switch_events ⟨"NO", tg⟩ s []⟩, ?_, rfl, ?_⟩
    · simp only [process_switch, h0, hls, set_state]
      rw [hsched]
      rw [hswp]
      rfl
    · intro i
      rw [iterate_empty_active]
      exact ⟨rfl, rfl⟩

theorem C1_dwell_with_cancellation_witness :
    (∃ st1, process_switch "s" 1 false
        ⟨0, [("s", ⟨"NO", []⟩)], [(switchKey "s" 1, [⟨3, 7⟩])], [], [], [], []⟩ = .ok st1 ∧
      st1.active = [(0 + 3, [⟨switchKey "s" 1, 7⟩])] ∧
      st1.fired = [] ∧
      ∀ i, (tickStep^[i] st1).tick = 0 + i ∧
        (tickStep^[i] st1).fired = if i < 3 then [] else [7]) ∧
    (∃ st1, process_switch "S" 1 false
        ⟨4, [("S", ⟨"NO", []⟩)], [(switchKey "S" 1, [⟨3, 1⟩])],
          [(4 + 3, [⟨switchKey "S" (1 ^^^ 1), 0⟩])], [], [], []⟩ = .ok st1 ∧
      st1.active = [] ∧
      ∀ i, (tickStep^[i] st1).tick = 4 + i ∧ (tickStep^[i] st1).fired = []) :=
  ⟨C1_dwell_with_cancellation.1 "s" 1 7 3 0 [] [] [] [] (by decide) (Or.inr rfl),
   C1_dwell_with_cancellation.2 "S" 1 1 0 3 4 [] [] [] [] (by decide) (Or.inr rfl)⟩

end Mpf
